import Mathlib

/-!
Verification of the swap-routing and execution-orchestration core of the
myDEX browser client (src/app/page.tsx and src/lib/utils/format.ts).

The TypeScript source is shallowly embedded: pools and the swap page state
become Lean structures, bigint arithmetic becomes exact Nat and Int
arithmetic, TypeScript functions become Lean functions that mirror the
source control flow, and the two React effects driving the approval and
swap sequencing become explicit step functions on an orchestrator state.
-/

namespace MyDex

/-- Ethereum addresses are hex strings in the client; the source compares
them with toLowerCase, so we keep them as strings. -/
abbrev Address := String

/-- Lower-casing of an address, character by character; embeds the
JavaScript toLowerCase call (addresses are ASCII hex strings). -/
def lowerAddr (a : Address) : Address := String.mk (a.data.map Char.toLower)

/-- Case-insensitive address equality, embedding the source pattern
`a.toLowerCase() === b.toLowerCase()`. -/
def addrEqCI (a b : Address) : Bool := lowerAddr a == lowerAddr b

/-- Token metadata as used by the swap page; only the decimal count feeds
the amount codec (from useTokenInfo / the TokenInfo shape in the types
module). -/
structure TokenInfo where
  decimals : Nat
  deriving DecidableEq

/-- Pool record, from the PoolInfo interface of the contract types module:
token0 and token1 are the pair, index identifies the pool, fee is in basis
points, tickLower and tickUpper bound the range, sqrtPriceX96 is the
current fixed-point price and liquidity the current liquidity.  The bigint
fields that are non-negative on chain (index, fee, sqrtPriceX96 and
liquidity are uint-typed in the contract) are embedded as Nat, ticks as
Int. -/
structure PoolInfo where
  pool : Address
  token0 : Address
  token1 : Address
  index : Nat
  fee : Nat
  feeProtocol : Nat
  tickLower : Int
  tickUpper : Int
  tick : Int
  sqrtPriceX96 : Nat
  liquidity : Nat
  deriving DecidableEq

/-- Whether a pool serves the requested pair, order-independently and
case-insensitively; embeds the filter predicate of calculatedIndexPath
(page.tsx lines 537-543). -/
def poolMatchesB (tokenIn tokenOut : Address) (p : PoolInfo) : Bool :=
  (addrEqCI p.token0 tokenIn && addrEqCI p.token1 tokenOut) ||
  (addrEqCI p.token0 tokenOut && addrEqCI p.token1 tokenIn)

/-- Whether a pool is initialized and funded; embeds the validPools filter
`pool.sqrtPriceX96 > BigInt(0) && pool.liquidity > BigInt(0)`
(page.tsx line 547). -/
def usableB (p : PoolInfo) : Bool :=
  decide (0 < p.sqrtPriceX96) && decide (0 < p.liquidity)

/-- One step of the bestPool reduce (page.tsx lines 556-569): keep the
accumulator unless the current pool has strictly more liquidity, or equal
liquidity and a strictly lower fee. -/
def stepPool (best current : PoolInfo) : PoolInfo :=
  if best.liquidity < current.liquidity then current
  else if current.liquidity < best.liquidity then best
  else if current.fee < best.fee then current
  else best

/-- Strict preference order used by the reduce: more liquidity wins, equal
liquidity falls back to lower fee. -/
def poolBetter (a b : PoolInfo) : Prop :=
  b.liquidity < a.liquidity ∨ (a.liquidity = b.liquidity ∧ a.fee < b.fee)

instance (a b : PoolInfo) : Decidable (poolBetter a b) := by
  unfold poolBetter; infer_instance

/-- The pool selector core of calculatedIndexPath (page.tsx lines
536-581): restrict to pools matching the pair, then to usable pools, then
reduce to the best pool; none when no usable matching pool remains. -/
def bestPool? (pools : List PoolInfo) (tokenIn tokenOut : Address) :
    Option PoolInfo :=
  if (pools.filter (poolMatchesB tokenIn tokenOut)).isEmpty then none
  else
    match (pools.filter (poolMatchesB tokenIn tokenOut)).filter usableB with
    | [] => none
    | v :: vs => some (vs.foldl stepPool v)

/-- The usable matching pools, in input order (the validPools list of the
source). -/
def validPools (pools : List PoolInfo) (tokenIn tokenOut : Address) :
    List PoolInfo :=
  (pools.filter (poolMatchesB tokenIn tokenOut)).filter usableB

/-- The swap page state: the useState cells of the component together with
the hook-provided chain reads it consumes (pools, token metadata, the
quote simulation result and the allowance read). -/
structure SwapPageState where
  connected : Bool
  address : Option Address
  tokenIn : Option Address
  tokenOut : Option Address
  amountIn : String
  amountOut : String
  isExactInput : Bool
  indexPath : List Nat
  pools : List PoolInfo
  tokenInInfo : Option TokenInfo
  tokenOutInfo : Option TokenInfo
  quoteAmount : Option Nat
  allowance : Nat
  isAllowanceLoading : Bool
  shouldAutoSwap : Bool
  deriving DecidableEq

/-- calculatedIndexPath (page.tsx lines 531-583): empty when a token is
missing or no pools are loaded, otherwise the singleton index of the best
usable matching pool, or empty when none exists. -/
def calculatedIndexPath (s : SwapPageState) : List Nat :=
  match s.tokenIn, s.tokenOut with
  | some tokenIn, some tokenOut =>
    if s.pools.isEmpty then []
    else
      match bestPool? s.pools tokenIn tokenOut with
      | some p => [p.index]
      | none => []
  | _, _ => []

/-- The numeric index path handed to the contract call: the stored index
path converted entry by entry with Number (identity on the embedded
values). -/
def indexPathAsNumbers (s : SwapPageState) : List Nat :=
  s.indexPath.map (fun i => i)

/-- Minimum valid sqrt price of the curve, from TickMath (page.tsx line
376). -/
def MIN_SQRT_PRICE : Nat := 4295128739

/-- Maximum valid sqrt price of the curve, from TickMath (page.tsx line
377). -/
def MAX_SQRT_PRICE : Nat := 1461446703485210103287273052203988822378723970342

/-- Largest uint256 value, the maximal approval and the disabled-slippage
input bound. -/
def MAX_UINT256 : Nat := 2 ^ 256 - 1

/-- The pool the price-limit computation works on (page.tsx lines
632-658): found by index and token match among the loaded pools, after
the same guards the source checks first. -/
def selectedPool? (s : SwapPageState) : Option PoolInfo :=
  match s.tokenIn, s.tokenOut with
  | some tokenIn, some tokenOut =>
    match calculatedIndexPath s with
    | [] => none
    | i0 :: _ =>
      if s.pools.isEmpty then none
      else s.pools.find? (fun p => p.index == i0 && poolMatchesB tokenIn tokenOut p)
  | _, _ => none

/-- Result of the tickLower branch for the sell-token0 direction
(page.tsx lines 683-690): the converted tickLower price if the tick is
above the curve floor and the price strictly between MIN_SQRT_PRICE and
the current price, otherwise still zero.  The argument t2p stands for the
external tickToSqrtPriceX96 conversion of the Uniswap SDK, which the
guards make irrelevant to the bounds. -/
def tickLimitDown (t2p : Int → Nat) (p : PoolInfo) : Nat :=
  if (-887272 : Int) < p.tickLower then
    if t2p p.tickLower < p.sqrtPriceX96 ∧ MIN_SQRT_PRICE < t2p p.tickLower then
      t2p p.tickLower
    else 0
  else 0

/-- The sell-token0 price limit (page.tsx lines 679-695): the tickLower
limit when set, otherwise 99 percent of the current price, raised to just
above MIN_SQRT_PRICE when that falls at or below it. -/
def priceLimitDown (t2p : Int → Nat) (p : PoolInfo) : Nat :=
  if tickLimitDown t2p p = 0 then
    if MIN_SQRT_PRICE < p.sqrtPriceX96 * 99 / 100 then p.sqrtPriceX96 * 99 / 100
    else MIN_SQRT_PRICE + 1
  else tickLimitDown t2p p

/-- Result of the tickUpper branch for the buy-token0 direction (page.tsx
lines 700-707). -/
def tickLimitUp (t2p : Int → Nat) (p : PoolInfo) : Nat :=
  if p.tickUpper < (887272 : Int) then
    if p.sqrtPriceX96 < t2p p.tickUpper ∧ t2p p.tickUpper < MAX_SQRT_PRICE then
      t2p p.tickUpper
    else 0
  else 0

/-- The buy-token0 price limit (page.tsx lines 696-713): the tickUpper
limit when set, otherwise 101 percent of the current price, lowered to
just below MAX_SQRT_PRICE when that reaches or exceeds it. -/
def priceLimitUp (t2p : Int → Nat) (p : PoolInfo) : Nat :=
  if tickLimitUp t2p p = 0 then
    if p.sqrtPriceX96 * 101 / 100 < MAX_SQRT_PRICE then p.sqrtPriceX96 * 101 / 100
    else MAX_SQRT_PRICE - 1
  else tickLimitUp t2p p

/-- Direction dispatch of the price-limit computation (page.tsx lines
672-713): zeroForOne holds when tokenIn is the pool token0
(case-insensitively). -/
def priceLimitCore (t2p : Int → Nat) (tokenIn : Address) (p : PoolInfo) : Nat :=
  if addrEqCI tokenIn p.token0 then priceLimitDown t2p p else priceLimitUp t2p p

/-- The sqrtPriceLimitX96 memo (page.tsx lines 632-723): zero when a
token is missing, no route was computed, no pools are loaded or no pool
matches index and tokens (all the cases in which selectedPool? is none),
zero when the selected pool is uninitialized or empty, and otherwise the
direction-dependent limit. -/
def sqrtPriceLimitX96 (t2p : Int → Nat) (s : SwapPageState) : Nat :=
  match s.tokenIn, selectedPool? s with
  | some tokenIn, some p =>
    if p.sqrtPriceX96 = 0 ∨ p.liquidity = 0 then 0
    else priceLimitCore t2p tokenIn p
  | _, _ => 0

/-- The enabled condition of the quote simulation query (page.tsx lines
774-786): tokens chosen, route computed, token metadata loaded, non-zero
price limit, non-empty numeric path, and a driving amount that is a
non-empty string different from the literal string zero. -/
def quoteEnabled (t2p : Int → Nat) (s : SwapPageState) : Bool :=
  s.tokenIn.isSome && s.tokenOut.isSome &&
  decide (0 < (calculatedIndexPath s).length) &&
  s.tokenInInfo.isSome && s.tokenOutInfo.isSome &&
  decide (0 < sqrtPriceLimitX96 t2p s) &&
  decide (0 < (indexPathAsNumbers s).length) &&
  ((s.isExactInput && !(s.amountIn == "") && !(s.amountIn == "0")) ||
   (!s.isExactInput && !(s.amountOut == "") && !(s.amountOut == "0")))

/-- Example addresses for concrete evaluations: a trading pair, a third
token, a user and a pool contract. -/
def addrA : Address := "0xAAA"

def addrB : Address := "0xbbb"

def addrC : Address := "0xccc"

def addrUser : Address := "0xuser"

def addrPool : Address := "0xpool"

/-- Q96 fixed-point scale: 2 to the power 96, the sqrt price of a price of
one. -/
def q96 : Nat := 79228162514264337593543950336

/-- A concrete stand-in for the external tick conversion in closed
evaluations; the counterexamples below are built so that the tick branch
is never taken and the choice is irrelevant. -/
def t2pZero : Int → Nat := fun _ => 0

/-- A matching but unusable pool: zero liquidity despite otherwise
attractive fields (lowest fee). -/
def cpoolDead : PoolInfo :=
  { pool := addrPool, token0 := "0xaaa", token1 := addrB, index := 0,
    fee := 1, feeProtocol := 0, tickLower := -100, tickUpper := 100,
    tick := 0, sqrtPriceX96 := q96, liquidity := 0 }

def cpool1 : PoolInfo :=
  { pool := addrPool, token0 := "0xaaa", token1 := addrB, index := 1,
    fee := 30, feeProtocol := 0, tickLower := -100, tickUpper := 100,
    tick := 0, sqrtPriceX96 := q96, liquidity := 100 }

def cpool2 : PoolInfo :=
  { pool := addrPool, token0 := "0xaaa", token1 := addrB, index := 2,
    fee := 5, feeProtocol := 0, tickLower := -100, tickUpper := 100,
    tick := 0, sqrtPriceX96 := q96, liquidity := 200 }

def cpool3 : PoolInfo :=
  { pool := addrPool, token0 := "0xaaa", token1 := addrB, index := 3,
    fee := 30, feeProtocol := 0, tickLower := -100, tickUpper := 100,
    tick := 0, sqrtPriceX96 := q96, liquidity := 200 }

/-- A pool for a different pair, to exercise the pair filter. -/
def cpoolOther : PoolInfo :=
  { pool := addrPool, token0 := "0xaaa", token1 := addrC, index := 4,
    fee := 5, feeProtocol := 0, tickLower := -100, tickUpper := 100,
    tick := 0, sqrtPriceX96 := q96, liquidity := 1000 }

def cpools : List PoolInfo := [cpoolDead, cpool1, cpool2, cpool3, cpoolOther]

def ctieWorse : PoolInfo :=
  { pool := addrPool, token0 := "0xaaa", token1 := addrB, index := 9,
    fee := 30, feeProtocol := 0, tickLower := -100, tickUpper := 100,
    tick := 0, sqrtPriceX96 := q96, liquidity := 400 }

def ctieA : PoolInfo :=
  { pool := addrPool, token0 := "0xaaa", token1 := addrB, index := 10,
    fee := 30, feeProtocol := 0, tickLower := -100, tickUpper := 100,
    tick := 0, sqrtPriceX96 := q96, liquidity := 500 }

def ctieB : PoolInfo :=
  { pool := addrPool, token0 := "0xaaa", token1 := addrB, index := 11,
    fee := 30, feeProtocol := 0, tickLower := -100, tickUpper := 100,
    tick := 0, sqrtPriceX96 := q96, liquidity := 500 }

def cpoolsTie : List PoolInfo := [ctieWorse, ctieA, ctieB]

/-- A pool whose current sqrt price is far below the valid curve range:
usable by the filter (positive price and liquidity), with tickLower at
the curve floor so the price-limit computation takes the fallback path. -/
def cpoolTiny : PoolInfo :=
  { pool := addrPool, token0 := "0xaaa", token1 := addrB, index := 0,
    fee := 30, feeProtocol := 0, tickLower := -887272, tickUpper := 887272,
    tick := 0, sqrtPriceX96 := 1, liquidity := 50 }

/-- State exhibiting the price-limit counterexample: the tiny-price pool
is selected and the trade sells token0. -/
def cstateTiny : SwapPageState :=
  { connected := true, address := some addrUser, tokenIn := some addrA,
    tokenOut := some addrB, amountIn := "1", amountOut := "",
    isExactInput := true, indexPath := [0], pools := [cpoolTiny],
    tokenInInfo := some { decimals := 18 },
    tokenOutInfo := some { decimals := 18 },
    quoteAmount := none, allowance := 0, isAllowanceLoading := false,
    shouldAutoSwap := false }

/-- A healthy pool at price one with mid-range ticks cleared out of the
way (tick bounds at the curve extremes force the one-percent fallback,
which is well inside the valid range at this price). -/
def cpoolGood : PoolInfo :=
  { pool := addrPool, token0 := "0xaaa", token1 := addrB, index := 7,
    fee := 30, feeProtocol := 0, tickLower := -887272, tickUpper := 887272,
    tick := 0, sqrtPriceX96 := q96, liquidity := 500 }

/-- A fully wired state over the healthy pool, with the stored index path
synchronized to the computed one. -/
def cstateGood : SwapPageState :=
  { connected := true, address := some addrUser, tokenIn := some addrA,
    tokenOut := some addrB, amountIn := "10", amountOut := "",
    isExactInput := true, indexPath := [7], pools := [cpoolGood],
    tokenInInfo := some { decimals := 18 },
    tokenOutInfo := some { decimals := 18 },
    quoteAmount := some 9850000000000000000, allowance := 0,
    isAllowanceLoading := false, shouldAutoSwap := false }

/-- An uninitialized pool sharing its index and pair with cpool2: the
route computation skips it, but the index-based find of the price-limit
computation hits it first. -/
def cpoolShadow : PoolInfo :=
  { pool := addrPool, token0 := "0xaaa", token1 := addrB, index := 2,
    fee := 30, feeProtocol := 0, tickLower := -100, tickUpper := 100,
    tick := 0, sqrtPriceX96 := 0, liquidity := 0 }

/-- State in which the pool found by index for the price limit is the
uninitialized shadow pool. -/
def cstateShadow : SwapPageState :=
  { connected := true, address := some addrUser, tokenIn := some addrA,
    tokenOut := some addrB, amountIn := "1", amountOut := "",
    isExactInput := true, indexPath := [2], pools := [cpoolShadow, cpool2],
    tokenInInfo := some { decimals := 18 },
    tokenOutInfo := some { decimals := 18 },
    quoteAmount := none, allowance := 0, isAllowanceLoading := false,
    shouldAutoSwap := false }

/-- State with both tokens chosen but no pools loaded: no route exists. -/
def cstateEmpty : SwapPageState :=
  { connected := true, address := some addrUser, tokenIn := some addrA,
    tokenOut := some addrB, amountIn := "1", amountOut := "",
    isExactInput := true, indexPath := [], pools := [],
    tokenInInfo := some { decimals := 18 },
    tokenOutInfo := some { decimals := 18 },
    quoteAmount := none, allowance := 0, isAllowanceLoading := false,
    shouldAutoSwap := false }

/-- Decimal digit character for a value below ten (values ten and above
clamp to the nine character; all uses keep the value below ten). -/
def digitChar (n : Nat) : Char :=
  match n with
  | 0 => '0' | 1 => '1' | 2 => '2' | 3 => '3' | 4 => '4'
  | 5 => '5' | 6 => '6' | 7 => '7' | 8 => '8' | _ => '9'

/-- Whether a character is a decimal digit. -/
def isDigitCh (c : Char) : Bool :=
  decide (48 ≤ c.toNat) && decide (c.toNat ≤ 57)

/-- Numeric value of a digit character. -/
def digitVal (c : Char) : Nat := c.toNat - 48

/-- Numeric value of a most-significant-first digit string; the empty
list reads as zero, exactly as the BigInt conversion of an empty digit
string does. -/
def ofDec (cs : List Char) : Nat :=
  cs.foldl (fun a c => 10 * a + digitVal c) 0

/-- Fuel-indexed decimal rendering, most significant digit first; the
fuel bounds the number of divisions by ten. -/
def toDecAux : Nat → Nat → List Char
  | 0, _ => []
  | fuel + 1, n =>
    if n = 0 then [] else toDecAux fuel (n / 10) ++ [digitChar (n % 10)]

/-- Decimal rendering of a natural number (toString of a bigint
magnitude). -/
def toDec (n : Nat) : List Char := if n = 0 then ['0'] else toDecAux n n

/-- Strip trailing zero characters: the replace of the trailing-zeros
regular expression with the empty string in the codec. -/
def dropTrailingZeros (cs : List Char) : List Char :=
  (cs.reverse.dropWhile (· == '0')).reverse

/-- Digit string of a magnitude left-padded with zeros to the decimal
count (the padStart of formatUnits). -/
def paddedDigits (n d : Nat) : List Char :=
  List.replicate (d - (toDec n).length) '0' ++ toDec n

/-- Whole part of a formatted amount: everything before the last d
digits. -/
def wholePart (n d : Nat) : List Char :=
  (paddedDigits n d).take ((paddedDigits n d).length - d)

/-- Fractional part of a formatted amount: the last d digits with
trailing zeros dropped. -/
def fracPart (n d : Nat) : List Char :=
  dropTrailingZeros ((paddedDigits n d).drop ((paddedDigits n d).length - d))

/-- Modelled from the spec: the viem formatUnits dependency of
formatTokenAmount (format.ts line 12), characterized by the spec as exact
integer rendering scaled by ten to the decimals.  The digit string of the
magnitude is left-padded with zeros to the decimal count, split into a
whole part and a fractional part of exactly that count, trailing
fractional zeros are dropped, an empty whole part prints as a single
zero, and a minus sign is prepended for negative values. -/
def formatUnitsL (value : Int) (d : Nat) : List Char :=
  (if value < 0 then ['-'] else []) ++
    (if (wholePart value.natAbs d).isEmpty then ['0']
     else wholePart value.natAbs d) ++
    (if (fracPart value.natAbs d).isEmpty then []
     else '.' :: fracPart value.natAbs d)

/-- String-level formatUnits. -/
def formatUnits (v : Int) (d : Nat) : String := String.mk (formatUnitsL v d)

/-- Split at the first dot character: the split on the dot string with
the first two components kept, as destructured by parseUnits. -/
def jsSplitDot (cs : List Char) : List Char × Option (List Char) :=
  match cs.span (fun c => !(c == '.')) with
  | (before, []) => (before, none)
  | (before, _ :: after) => (before, some after)

/-- Shape accepted by the parseUnits input check, minus sign stripped:
digit and dot characters only, with at most one dot. -/
def numericShapeCore (t : List Char) : Bool :=
  t.all (fun c => isDigitCh c || c == '.') &&
    decide ((t.filter (fun c => c == '.')).length ≤ 1)

/-- Modelled from the spec: the input shape check of the viem parseUnits
dependency — an optional leading minus sign, then digits with at most one
dot. -/
def numericShape (cs : List Char) : Bool :=
  if cs.head? == some '-' then numericShapeCore cs.tail else numericShapeCore cs

/-- Modelled from the spec: magnitude computed by the viem parseUnits
dependency from a sign-stripped whole part and a fractional part.  The
fractional digits are trimmed of trailing zeros; when at most the decimal
count remains they are right-padded to it and appended to the whole part
(exact integer arithmetic scaled by ten to the decimals, as the spec
states); over-precise fractional digits are rounded half-up at the
decimal count, stated here arithmetically. -/
def roundHalfUp (x scale : Nat) : Nat :=
  x / scale + (if scale ≤ x % scale * 2 then 1 else 0)

def parseUnitsMag (integer fraction0 : List Char) (d : Nat) : Nat :=
  if d < (dropTrailingZeros fraction0).length then
    roundHalfUp
      (ofDec integer * 10 ^ (dropTrailingZeros fraction0).length +
        ofDec (dropTrailingZeros fraction0))
      (10 ^ ((dropTrailingZeros fraction0).length - d))
  else
    ofDec (integer ++
      (dropTrailingZeros fraction0 ++
        List.replicate (d - (dropTrailingZeros fraction0).length) '0'))

/-- Modelled from the spec: the viem parseUnits dependency of
parseTokenAmount (format.ts line 23) — none on inputs failing the shape
check (the throw), otherwise the signed exact magnitude; the whole part
defaults the fractional part to a single zero digit when no dot is
present. -/
def parseUnitsL (cs : List Char) (d : Nat) : Option Int :=
  if numericShape cs then
    match jsSplitDot cs with
    | (integer0, fracOpt) =>
      if (integer0.head? == some '-') then
        some (-(Int.ofNat (parseUnitsMag integer0.tail (fracOpt.getD ['0']) d)))
      else
        some (Int.ofNat (parseUnitsMag integer0 (fracOpt.getD ['0']) d))
  else none

/-- String-level parseUnits. -/
def parseUnits (s : String) (d : Nat) : Option Int := parseUnitsL s.data d

/-- The argument of formatTokenAmount: a bigint or a raw string. -/
inductive AmountValue where
  | big (v : Int)
  | str (s : String)
  deriving DecidableEq

/-- Modelled from the spec: the BigInt string conversion applied when
formatTokenAmount receives a string — an optional minus sign followed by
decimal digits (the empty string reads as zero); anything else throws. -/
def jsBigIntOfString? (s : String) : Option Int :=
  match s.data with
  | '-' :: t =>
    if t.all isDigitCh && !t.isEmpty then some (-(Int.ofNat (ofDec t)))
    else none
  | t => if t.all isDigitCh then some (Int.ofNat (ofDec t)) else none

/-- formatTokenAmount (format.ts lines 9-16): strings are converted with
BigInt first and a conversion failure renders as the zero string; bigint
inputs always format. -/
def formatTokenAmount (a : AmountValue) (decimals : Nat) : String :=
  match a with
  | .big v => formatUnits v decimals
  | .str s =>
    match jsBigIntOfString? s with
    | some v => formatUnits v decimals
    | none => "0"

/-- parseTokenAmount (format.ts lines 21-27): parseUnits with every
failure caught and replaced by zero. -/
def parseTokenAmount (s : String) (decimals : Nat) : Int :=
  (parseUnits s decimals).getD 0

/-- Parameters of the exactInput router call built by executeSwap
(page.tsx lines 1111-1127). -/
structure ExactInParams where
  tokenIn : Address
  tokenOut : Address
  indexPath : List Nat
  recipient : Address
  deadline : Nat
  amountIn : Int
  amountOutMinimum : Nat
  sqrtPriceLimitX96 : Nat
  deriving DecidableEq

/-- Parameters of the exactOutput router call built by executeSwap
(page.tsx lines 1134-1150). -/
structure ExactOutParams where
  tokenIn : Address
  tokenOut : Address
  indexPath : List Nat
  recipient : Address
  deadline : Nat
  amountOut : Int
  amountInMaximum : Nat
  sqrtPriceLimitX96 : Nat
  deriving DecidableEq

/-- The router call submitted by executeSwap. -/
inductive SwapCall where
  | exactInput (p : ExactInParams)
  | exactOutput (p : ExactOutParams)
  deriving DecidableEq

/-- executeSwap (page.tsx lines 1089-1151): none when a token, the wallet
address or the route is missing, or when the driving amount of the active
mode is empty or its token metadata unloaded; otherwise the router call
with the twenty-minute deadline, the parsed driving amount, the
slippage-protected counter bound and the computed price limit.  JS
truthiness is embedded literally: an empty driving amount string blocks
the call, and a quote of zero counts as no quote for the slippage bound. -/
def executeSwap (t2p : Int → Nat) (now : Nat) (s : SwapPageState) :
    Option SwapCall :=
  match s.tokenIn, s.tokenOut, s.address with
  | some tokenIn, some tokenOut, some addr =>
    if s.indexPath.isEmpty then none
    else if s.isExactInput && !(s.amountIn == "") then
      match s.tokenInInfo with
      | some info =>
        some (.exactInput
          { tokenIn := tokenIn, tokenOut := tokenOut,
            indexPath := indexPathAsNumbers s, recipient := addr,
            deadline := now + 60 * 20,
            amountIn := parseTokenAmount s.amountIn info.decimals,
            amountOutMinimum :=
              match s.quoteAmount with
              | some q => if q = 0 then 0 else q - q * 5 / 100
              | none => 0,
            sqrtPriceLimitX96 := sqrtPriceLimitX96 t2p s })
      | none => none
    else if !s.isExactInput && !(s.amountOut == "") then
      match s.tokenOutInfo with
      | some info =>
        some (.exactOutput
          { tokenIn := tokenIn, tokenOut := tokenOut,
            indexPath := indexPathAsNumbers s, recipient := addr,
            deadline := now + 60 * 20,
            amountOut := parseTokenAmount s.amountOut info.decimals,
            amountInMaximum :=
              match s.quoteAmount with
              | some q => if q = 0 then MAX_UINT256 else q + q * 5 / 100
              | none => MAX_UINT256,
            sqrtPriceLimitX96 := sqrtPriceLimitX96 t2p s })
      | none => none
    else none
  | _, _, _ => none

/-- The amountIn field of a built exactInput call, when one was built. -/
def txAmountIn? (c : Option SwapCall) : Option Int :=
  match c with
  | some (.exactInput p) => some p.amountIn
  | _ => none

/-- handleSwitchTokens (page.tsx lines 1234-1242): swap the token pair,
swap the two amount strings and invert the input mode. -/
def handleSwitchTokens (s : SwapPageState) : SwapPageState :=
  { s with
    tokenIn := s.tokenOut
    tokenOut := s.tokenIn
    amountIn := s.amountOut
    amountOut := s.amountIn
    isExactInput := !s.isExactInput }

/-- Orchestrator state for the approval-then-swap sequencing: the flags
and reads consumed by the three effects of the page, plus what they
produce (an allowance refetch request and a submitted swap). -/
structure OrchState where
  hasTokenIn : Bool
  isApproveSuccess : Bool
  shouldAutoSwap : Bool
  allowance : Nat
  requiredAmount : Nat
  isAllowanceLoading : Bool
  refetchRequested : Bool
  swapSubmitted : Bool
  deriving DecidableEq

/-- needsApproval (page.tsx lines 936-939): false without a sell token or
a required amount, otherwise true exactly when the allowance is below the
required amount. -/
def needsApproval (st : OrchState) : Bool :=
  if !st.hasTokenIn || st.requiredAmount == 0 then false
  else decide (st.allowance < st.requiredAmount)

/-- Effect at page.tsx lines 961-968: on approval confirmation, request an
allowance refetch (and invalidate cached reads). -/
def onApproveSuccessRefetch (st : OrchState) : OrchState :=
  if st.isApproveSuccess then { st with refetchRequested := true } else st

/-- Effect at page.tsx lines 1178-1183: on approval confirmation, set the
auto-swap mark. -/
def onApproveSuccessFlag (st : OrchState) : OrchState :=
  if st.isApproveSuccess then { st with shouldAutoSwap := true } else st

/-- Environment transition: the requested allowance read completes with a
fresh on-chain value and loading ends. -/
def allowanceRefreshDone (fresh : Nat) (st : OrchState) : OrchState :=
  { st with
    allowance := fresh
    isAllowanceLoading := false
    refetchRequested := false }

/-- Effect at page.tsx lines 1185-1194: when the auto-swap mark is set,
approval is no longer needed and the allowance read is idle, clear the
mark and submit the swap (the hundred-millisecond timer is modelled as
immediate submission). -/
def autoSwapEffect (st : OrchState) : OrchState :=
  if st.shouldAutoSwap && !(needsApproval st) && !st.isAllowanceLoading then
    { st with shouldAutoSwap := false, swapSubmitted := true }
  else st

/-- A non-numeric amount string. -/
def strAbc : String := "abc"

/-- cstateGood with the non-numeric amount typed into the driving field. -/
def cstateAbc : SwapPageState :=
  { cstateGood with amountIn := strAbc, quoteAmount := none }

/-- cstateGood with a driving amount that is a non-empty string other
than the literal zero but parses to the value zero. -/
def cstateZeroDot : SwapPageState :=
  { cstateGood with amountIn := "0.0" }

/-- cstateGood flipped to exact-output mode with a quoted required input
amount of ten tokens. -/
def cstateOut : SwapPageState :=
  { cstateGood with
    isExactInput := false
    amountIn := ""
    amountOut := "9.85"
    quoteAmount := some 10000000000000000000 }

/-- cstateOut with no quote available. -/
def cstateOutNoQuote : SwapPageState :=
  { cstateOut with quoteAmount := none }

/-- The exactInput call executeSwap builds from cstateGood (deadline from
time zero). -/
def cexactIn : ExactInParams :=
  { tokenIn := addrA, tokenOut := addrB, indexPath := [7],
    recipient := addrUser, deadline := 1200,
    amountIn := 10000000000000000000,
    amountOutMinimum := 9357500000000000000,
    sqrtPriceLimitX96 := 78435880889121694217608510832 }

/-- The exactOutput call executeSwap builds from cstateOut. -/
def cexactOut : ExactOutParams :=
  { tokenIn := addrA, tokenOut := addrB, indexPath := [7],
    recipient := addrUser, deadline := 1200,
    amountOut := 9850000000000000000,
    amountInMaximum := 10500000000000000000,
    sqrtPriceLimitX96 := 78435880889121694217608510832 }

/-- The exactOutput call executeSwap builds from cstateOutNoQuote. -/
def cexactOutNoQuote : ExactOutParams :=
  { cexactOut with amountInMaximum := MAX_UINT256 }

/-- An orchestrator state right after the approval transaction confirmed:
the allowance read is still stale (zero) and loading. -/
def corchApproved : OrchState :=
  { hasTokenIn := true, isApproveSuccess := true, shouldAutoSwap := false,
    allowance := 0, requiredAmount := 10000000000000000000,
    isAllowanceLoading := true, refetchRequested := false,
    swapSubmitted := false }

section PoolSelector

lemma poolBetter_irrefl (a : PoolInfo) : ¬ poolBetter a a := by
  unfold poolBetter; omega

lemma poolBetter_asymm {a b : PoolInfo} (h : poolBetter a b) :
    ¬ poolBetter b a := by
  unfold poolBetter at *; omega

lemma poolBetter_trans {a b c : PoolInfo}
    (h1 : poolBetter a b) (h2 : poolBetter b c) : poolBetter a c := by
  unfold poolBetter at *; omega

lemma poolBetter_resolve {a b : PoolInfo}
    (h1 : ¬ poolBetter a b) (h2 : ¬ poolBetter b a) :
    a.liquidity = b.liquidity ∧ a.fee = b.fee := by
  unfold poolBetter at *; omega

lemma poolBetter_congr_left {a b c : PoolInfo}
    (hl : a.liquidity = b.liquidity) (hf : a.fee = b.fee) :
    poolBetter a c ↔ poolBetter b c := by
  unfold poolBetter; omega

lemma poolBetter_congr_right {a b c : PoolInfo}
    (hl : a.liquidity = b.liquidity) (hf : a.fee = b.fee) :
    poolBetter c a ↔ poolBetter c b := by
  unfold poolBetter; omega

lemma stepPool_eq (b c : PoolInfo) :
    stepPool b c = if poolBetter c b then c else b := by
  unfold stepPool poolBetter
  split_ifs <;> first | rfl | (exfalso; omega)

/-- Characterization of the bestPool reduce: the result occurs in the
list, no element of the list beats it, and it strictly beats every element
occurring before it. -/
lemma foldl_stepPool_spec (vs : List PoolInfo) :
    ∀ v : PoolInfo,
      ∃ l1 l2, v :: vs = l1 ++ (vs.foldl stepPool v) :: l2 ∧
        (∀ q ∈ v :: vs, ¬ poolBetter q (vs.foldl stepPool v)) ∧
        (∀ q ∈ l1, poolBetter (vs.foldl stepPool v) q) := by
  induction vs with
  | nil =>
    intro v
    exact ⟨[], [], rfl, by simpa using poolBetter_irrefl v, by simp⟩
  | cons c tl ih =>
    intro v
    have hfold : (c :: tl).foldl stepPool v = tl.foldl stepPool (stepPool v c) := rfl
    obtain ⟨l1, l2, hdec, hopt, hrun⟩ := ih (stepPool v c)
    by_cases hbc : poolBetter c v
    · -- the current element replaces the accumulator
      have hstep : stepPool v c = c := by rw [stepPool_eq]; simp [hbc]
      rw [hstep] at hdec hopt hrun
      set r := tl.foldl stepPool c with hr
      have hrc : ¬ poolBetter c r := hopt c (List.mem_cons_self _ _)
      have hrv : poolBetter r v := by
        by_cases hrc2 : poolBetter r c
        · exact poolBetter_trans hrc2 hbc
        · obtain ⟨hl, hf⟩ := poolBetter_resolve hrc2 hrc
          exact (poolBetter_congr_left hl.symm hf.symm).mp hbc
      refine ⟨v :: l1, l2, ?_, ?_, ?_⟩
      · rw [hfold, hstep, ← hr, hdec]
        rfl
      · intro q hq
        rw [hfold, hstep, ← hr]
        rcases List.mem_cons.mp hq with h | h
        · subst h; exact poolBetter_asymm hrv
        · exact hopt q h
      · intro q hq
        rw [hfold, hstep, ← hr]
        rcases List.mem_cons.mp hq with h | h
        · subst h; exact hrv
        · exact hrun q h
    · -- the accumulator survives this element
      have hstep : stepPool v c = v := by rw [stepPool_eq]; simp [hbc]
      rw [hstep] at hdec hopt hrun
      set r := tl.foldl stepPool v with hr
      cases l1 with
      | nil =>
        -- the accumulator itself is the final result
        have hrv : v = r := by simpa using congrArg (fun l => l.head?) hdec
        refine ⟨[], c :: tl, ?_, ?_, by simp⟩
        · rw [hfold, hstep, ← hr, ← hrv, List.nil_append]
        · intro q hq
          rw [hfold, hstep, ← hr]
          rcases List.mem_cons.mp hq with h | h
          · subst h; exact hopt q (List.mem_cons_self _ _)
          · rcases List.mem_cons.mp h with h2 | h2
            · subst h2; rw [← hrv]; exact hbc
            · exact hopt q (List.mem_cons_of_mem _ h2)
      | cons x l1' =>
        rw [List.cons_append] at hdec
        injection hdec with hxv htl
        subst hxv
        have hrv : poolBetter r v := hrun v (List.mem_cons_self _ _)
        have hrc : poolBetter r c := by
          by_cases hvc : poolBetter v c
          · exact poolBetter_trans hrv hvc
          · obtain ⟨hl, hf⟩ := poolBetter_resolve hbc hvc
            exact (poolBetter_congr_right hl.symm hf.symm).mp hrv
        refine ⟨v :: c :: l1', l2, ?_, ?_, ?_⟩
        · rw [hfold, hstep, ← hr]
          simp [htl]
        · intro q hq
          rw [hfold, hstep, ← hr]
          rcases List.mem_cons.mp hq with h | h
          · subst h; exact poolBetter_asymm hrv
          · rcases List.mem_cons.mp h with h2 | h2
            · subst h2; exact poolBetter_asymm hrc
            · exact hopt q (List.mem_cons_of_mem _ h2)
        · intro q hq
          rw [hfold, hstep, ← hr]
          rcases List.mem_cons.mp hq with h | h
          · subst h; exact hrv
          · rcases List.mem_cons.mp h with h2 | h2
            · subst h2; exact hrc
            · exact hrun q (List.mem_cons_of_mem _ h2)

/-- The selector result, when present, splits the usable matching pools
into strictly worse predecessors, the result, and unbeaten successors. -/
lemma bestPool?_decomp {pools : List PoolInfo} {tA tB : Address} {r : PoolInfo}
    (h : bestPool? pools tA tB = some r) :
    ∃ l1 l2, validPools pools tA tB = l1 ++ r :: l2 ∧
      (∀ q ∈ validPools pools tA tB, ¬ poolBetter q r) ∧
      (∀ q ∈ l1, poolBetter r q) := by
  unfold bestPool? at h
  unfold validPools
  by_cases hm : (pools.filter (poolMatchesB tA tB)).isEmpty
  · rw [if_pos hm] at h; exact absurd h (by simp)
  · rw [if_neg hm] at h
    cases hv : (pools.filter (poolMatchesB tA tB)).filter usableB with
    | nil => rw [hv] at h; exact absurd h (by simp)
    | cons v vs =>
      rw [hv] at h
      have hfr : vs.foldl stepPool v = r := by simpa using h
      obtain ⟨l1, l2, hdec, hopt, hrun⟩ := foldl_stepPool_spec vs v
      rw [hfr] at hdec hopt hrun
      exact ⟨l1, l2, hdec, hopt, hrun⟩

/-- The selector result, when present, is drawn from the usable matching
pools and no usable matching pool beats it. -/
lemma bestPool?_spec {pools : List PoolInfo} {tA tB : Address} {r : PoolInfo}
    (h : bestPool? pools tA tB = some r) :
    r ∈ validPools pools tA tB ∧
      ∀ q ∈ validPools pools tA tB, ¬ poolBetter q r := by
  obtain ⟨l1, l2, hdec, hopt, -⟩ := bestPool?_decomp h
  exact ⟨by rw [hdec]; simp, hopt⟩

/-- The selector returns none exactly when no usable matching pool
exists. -/
lemma bestPool?_none_iff {pools : List PoolInfo} {tA tB : Address} :
    bestPool? pools tA tB = none ↔ validPools pools tA tB = [] := by
  unfold bestPool? validPools
  by_cases hm : (pools.filter (poolMatchesB tA tB)).isEmpty
  · have hnil : pools.filter (poolMatchesB tA tB) = [] := by
      simpa [List.isEmpty_iff] using hm
    rw [if_pos hm, hnil]
    simp
  · rw [if_neg hm]
    cases hv : (pools.filter (poolMatchesB tA tB)).filter usableB with
    | nil => simp
    | cons v vs => simp

/-- Membership in the usable matching pools unpacks into the three
defining conditions. -/
lemma mem_validPools {p : PoolInfo} {pools : List PoolInfo} {tA tB : Address} :
    p ∈ validPools pools tA tB ↔
      p ∈ pools ∧ poolMatchesB tA tB p = true ∧ usableB p = true := by
  unfold validPools
  simp [List.mem_filter]
  tauto

lemma usableB_iff {p : PoolInfo} :
    usableB p = true ↔ 0 < p.sqrtPriceX96 ∧ 0 < p.liquidity := by
  simp [usableB]

lemma not_poolBetter_iff {p r : PoolInfo} :
    ¬ poolBetter p r ↔
      p.liquidity ≤ r.liquidity ∧
        (p.liquidity = r.liquidity → r.fee ≤ p.fee) := by
  unfold poolBetter; omega

end PoolSelector

/-- C1: the pool selector restricts to pools matching the pair
order-independently and case-insensitively, drops every pool with zero
current price or zero liquidity, and from the remaining usable pools
returns one with the greatest liquidity, breaking liquidity ties by the
lowest fee; it returns none, never an error, exactly when no usable
matching pool remains.  In particular the returned pool always has
positive liquidity, so a zero-liquidity pool is never selected. -/
theorem pool_selector_best (pools : List PoolInfo) (tA tB : Address) :
    (bestPool? pools tA tB = none →
      ∀ p ∈ pools, poolMatchesB tA tB p = true → usableB p = true → False) ∧
    (∀ r, bestPool? pools tA tB = some r →
      r ∈ pools ∧ poolMatchesB tA tB r = true ∧
        0 < r.sqrtPriceX96 ∧ 0 < r.liquidity ∧
        ∀ p ∈ pools, poolMatchesB tA tB p = true → usableB p = true →
          p.liquidity ≤ r.liquidity ∧
            (p.liquidity = r.liquidity → r.fee ≤ p.fee)) := by
  constructor
  · intro h p hp hmatch husable
    have hnil : validPools pools tA tB = [] := bestPool?_none_iff.mp h
    have : p ∈ validPools pools tA tB := mem_validPools.mpr ⟨hp, hmatch, husable⟩
    rw [hnil] at this
    simp at this
  · intro r h
    obtain ⟨hmem, hopt⟩ := bestPool?_spec h
    obtain ⟨hp, hmatch, husable⟩ := mem_validPools.mp hmem
    refine ⟨hp, hmatch, (usableB_iff.mp husable).1, (usableB_iff.mp husable).2, ?_⟩
    intro p hpp hpmatch hpusable
    exact not_poolBetter_iff.mp (hopt p (mem_validPools.mpr ⟨hpp, hpmatch, hpusable⟩))

/-- C10: when usable matching pools tie on both liquidity and fee, the
selector returns the pool occurring earliest in the input list: the
usable matching pools split around the returned pool so that every pool
listed before it is strictly beaten by it (more liquidity, or equal
liquidity and lower fee), hence no earlier pool ties with it.  The
selection is a pure function of the pool list and the pair, so the same
list always yields the same result. -/
theorem pool_selector_earliest (pools : List PoolInfo) (tA tB : Address)
    (r : PoolInfo) (h : bestPool? pools tA tB = some r) :
    ∃ l1 l2, validPools pools tA tB = l1 ++ r :: l2 ∧
      (∀ q ∈ l1, poolBetter r q) ∧
      ∀ q ∈ l1, ¬ (q.liquidity = r.liquidity ∧ q.fee = r.fee) := by
  obtain ⟨l1, l2, hdec, -, hrun⟩ := bestPool?_decomp h
  refine ⟨l1, l2, hdec, hrun, ?_⟩
  intro q hq htie
  have := hrun q hq
  unfold poolBetter at this
  omega

theorem pool_selector_best_witness :
    (0 < cpool2.liquidity) ∧
      (cpool1.liquidity ≤ cpool2.liquidity) ∧
      (cpoolDead.liquidity ≤ cpool2.liquidity) :=
  ⟨((pool_selector_best cpools addrA addrB).2 cpool2 (by decide)).2.2.2.1,
   (((pool_selector_best cpools addrA addrB).2 cpool2 (by decide)).2.2.2.2
      cpool1 (by decide) (by decide) (by decide)).1,
   le_of_lt (lt_of_lt_of_le (by decide)
     ((pool_selector_best cpools addrA addrB).2 cpool2 (by decide)).2.2.2.1)⟩

theorem pool_selector_earliest_witness :
    (bestPool? cpoolsTie addrA addrB = some ctieA) ∧
      ∃ l1 l2, validPools cpoolsTie addrA addrB = l1 ++ ctieA :: l2 ∧
        (∀ q ∈ l1, poolBetter ctieA q) ∧
        ∀ q ∈ l1, ¬ (q.liquidity = ctieA.liquidity ∧ q.fee = ctieA.fee) :=
  ⟨by decide, pool_selector_earliest cpoolsTie addrA addrB ctieA (by decide)⟩

section PriceLimit

lemma priceLimitDown_bounds {t2p : Int → Nat} {p : PoolInfo}
    (hlow : MIN_SQRT_PRICE + 1 < p.sqrtPriceX96) :
    MIN_SQRT_PRICE < priceLimitDown t2p p ∧
      priceLimitDown t2p p < p.sqrtPriceX96 := by
  have h99 : p.sqrtPriceX96 * 99 / 100 < p.sqrtPriceX96 := by
    rw [Nat.div_lt_iff_lt_mul (by norm_num)]
    omega
  unfold priceLimitDown tickLimitDown
  by_cases hA : (-887272 : Int) < p.tickLower
  · by_cases hB : t2p p.tickLower < p.sqrtPriceX96 ∧ MIN_SQRT_PRICE < t2p p.tickLower
    · rw [if_pos hA, if_pos hB, if_neg (by omega)]
      exact ⟨hB.2, hB.1⟩
    · rw [if_pos hA, if_neg hB, if_pos rfl]
      split_ifs with hC
      · exact ⟨hC, h99⟩
      · constructor <;> omega
  · rw [if_neg hA, if_pos rfl]
    split_ifs with hC
    · exact ⟨hC, h99⟩
    · constructor <;> omega

lemma priceLimitUp_bounds {t2p : Int → Nat} {p : PoolInfo}
    (hlow : MIN_SQRT_PRICE + 1 < p.sqrtPriceX96)
    (hhigh : p.sqrtPriceX96 < MAX_SQRT_PRICE - 1) :
    p.sqrtPriceX96 < priceLimitUp t2p p ∧
      priceLimitUp t2p p < MAX_SQRT_PRICE := by
  have h100 : 100 ≤ p.sqrtPriceX96 := by
    have hc : (100 : Nat) ≤ MIN_SQRT_PRICE + 1 := by norm_num [MIN_SQRT_PRICE]
    omega
  have h101 : p.sqrtPriceX96 < p.sqrtPriceX96 * 101 / 100 := by
    have hstep : p.sqrtPriceX96 + 1 ≤ p.sqrtPriceX96 * 101 / 100 := by
      rw [Nat.le_div_iff_mul_le (by norm_num)]
      omega
    omega
  have hm1 : 1 ≤ MAX_SQRT_PRICE := by norm_num [MAX_SQRT_PRICE]
  unfold priceLimitUp tickLimitUp
  by_cases hA : p.tickUpper < (887272 : Int)
  · by_cases hB : p.sqrtPriceX96 < t2p p.tickUpper ∧ t2p p.tickUpper < MAX_SQRT_PRICE
    · rw [if_pos hA, if_pos hB, if_neg (by omega)]
      exact hB
    · rw [if_pos hA, if_neg hB, if_pos rfl]
      split_ifs with hC
      · exact ⟨h101, hC⟩
      · constructor <;> omega
  · rw [if_neg hA, if_pos rfl]
    split_ifs with hC
    · exact ⟨h101, hC⟩
    · constructor <;> omega

end PriceLimit

/-- C2 (amended): for a selected pool with positive liquidity whose
current price lies strictly inside the curve range with one unit of slack
on each side (above MIN_SQRT_PRICE plus one and below MAX_SQRT_PRICE
minus one), the computed limit satisfies MIN_SQRT_PRICE < limit < price
when selling token0 and price < limit < MAX_SQRT_PRICE otherwise, for
every tick-to-price conversion; in particular the one-percent fallback
never reaches or crosses the global bounds there.  The slack is needed:
the claim as stated fails for usable pools priced at the very bottom or
top of the range (see the counterexample). -/
theorem price_limit_bounds (t2p : Int → Nat) (s : SwapPageState)
    (tIn : Address) (p : PoolInfo)
    (htIn : s.tokenIn = some tIn)
    (hp : selectedPool? s = some p)
    (hliq : 0 < p.liquidity)
    (hlow : MIN_SQRT_PRICE + 1 < p.sqrtPriceX96)
    (hhigh : p.sqrtPriceX96 < MAX_SQRT_PRICE - 1) :
    (addrEqCI tIn p.token0 = true →
      MIN_SQRT_PRICE < sqrtPriceLimitX96 t2p s ∧
        sqrtPriceLimitX96 t2p s < p.sqrtPriceX96) ∧
    (addrEqCI tIn p.token0 = false →
      p.sqrtPriceX96 < sqrtPriceLimitX96 t2p s ∧
        sqrtPriceLimitX96 t2p s < MAX_SQRT_PRICE) := by
  have heq : sqrtPriceLimitX96 t2p s = priceLimitCore t2p tIn p := by
    unfold sqrtPriceLimitX96
    rw [htIn, hp]
    exact if_neg (by omega)
  constructor
  · intro hdir
    rw [heq]
    unfold priceLimitCore
    rw [hdir, if_pos rfl]
    exact priceLimitDown_bounds hlow
  · intro hdir
    rw [heq]
    unfold priceLimitCore
    rw [hdir]
    simp only [Bool.false_eq_true, if_false]
    exact priceLimitUp_bounds hlow hhigh

theorem price_limit_bounds_witness :
    (addrEqCI addrA cpoolGood.token0 = true →
      MIN_SQRT_PRICE < sqrtPriceLimitX96 t2pZero cstateGood ∧
        sqrtPriceLimitX96 t2pZero cstateGood < cpoolGood.sqrtPriceX96) ∧
    (addrEqCI addrA cpoolGood.token0 = false →
      cpoolGood.sqrtPriceX96 < sqrtPriceLimitX96 t2pZero cstateGood ∧
        sqrtPriceLimitX96 t2pZero cstateGood < MAX_SQRT_PRICE) :=
  price_limit_bounds t2pZero cstateGood addrA cpoolGood (by decide) (by decide)
    (by decide) (by decide) (by decide)

/-- C2 counterexample: a pool that is usable in the sense of the claim
(positive price and liquidity) but priced at one, selling token0: the
computed limit is MIN_SQRT_PRICE plus one, which is not below the current
price, refuting the claimed GLOBAL_MIN < limit < P bound.  The tick
branch is skipped because tickLower sits at the curve floor, so the
choice of tick conversion is irrelevant. -/
theorem price_limit_bounds_cex :
    (0 < cpoolTiny.sqrtPriceX96 ∧ 0 < cpoolTiny.liquidity) ∧
      selectedPool? cstateTiny = some cpoolTiny ∧
      addrEqCI addrA cpoolTiny.token0 = true ∧
      sqrtPriceLimitX96 t2pZero cstateTiny = MIN_SQRT_PRICE + 1 ∧
      ¬ (sqrtPriceLimitX96 t2pZero cstateTiny < cpoolTiny.sqrtPriceX96) := by
  decide

/-- C4: if the pool found for the price limit is uninitialized or has no
liquidity, or no pool is selected at all, the price-limit computation
returns the zero sentinel; and whenever the price limit is zero or the
computed route is empty, the quote simulation query is disabled. -/
theorem sentinel_and_gating (t2p : Int → Nat) :
    (∀ s p, selectedPool? s = some p →
      p.sqrtPriceX96 = 0 ∨ p.liquidity = 0 → sqrtPriceLimitX96 t2p s = 0) ∧
    (∀ s, selectedPool? s = none → sqrtPriceLimitX96 t2p s = 0) ∧
    (∀ s, sqrtPriceLimitX96 t2p s = 0 ∨ calculatedIndexPath s = [] →
      quoteEnabled t2p s = false) := by
  refine ⟨?_, ?_, ?_⟩
  · intro s p hp hun
    cases hIn : s.tokenIn with
    | none =>
      unfold selectedPool? at hp
      rw [hIn] at hp
      exact absurd hp (by simp)
    | some tIn =>
      unfold sqrtPriceLimitX96
      rw [hIn, hp]
      exact if_pos hun
  · intro s hp
    unfold sqrtPriceLimitX96
    rw [hp]
    cases hIn : s.tokenIn <;> rfl
  · intro s h0
    unfold quoteEnabled
    rcases h0 with h0 | h0
    · rw [h0]
      simp
    · rw [h0]
      simp

theorem sentinel_and_gating_witness :
    selectedPool? cstateShadow = some cpoolShadow ∧
      sqrtPriceLimitX96 t2pZero cstateShadow = 0 ∧
      sqrtPriceLimitX96 t2pZero cstateEmpty = 0 ∧
      quoteEnabled t2pZero cstateShadow = false :=
  ⟨by decide,
   (sentinel_and_gating t2pZero).1 cstateShadow cpoolShadow (by decide)
     (Or.inl (by decide)),
   (sentinel_and_gating t2pZero).2.1 cstateEmpty (by decide),
   (sentinel_and_gating t2pZero).2.2 cstateShadow
     (Or.inl ((sentinel_and_gating t2pZero).1 cstateShadow cpoolShadow
       (by decide) (Or.inl (by decide))))⟩

/-- C5 (amended): once the stored index path has been synchronized with
the computed route (the effect at page.tsx line 592), the quote query is
enabled exactly when both tokens are chosen, both token metadata records
are loaded, the computed route is non-empty, the price limit is
non-zero, and the driving amount is a non-empty string different from
the literal string zero.  The source checks neither that the two tokens
are distinct nor that the driving amount parses to a positive integer
(see the counterexample). -/
theorem quote_enabled_iff (t2p : Int → Nat) (s : SwapPageState)
    (hsync : s.indexPath = calculatedIndexPath s) :
    quoteEnabled t2p s = true ↔
      s.tokenIn.isSome = true ∧ s.tokenOut.isSome = true ∧
      s.tokenInInfo.isSome = true ∧ s.tokenOutInfo.isSome = true ∧
      calculatedIndexPath s ≠ [] ∧ sqrtPriceLimitX96 t2p s ≠ 0 ∧
      ((s.isExactInput = true ∧ s.amountIn ≠ "" ∧ s.amountIn ≠ "0") ∨
       (s.isExactInput = false ∧ s.amountOut ≠ "" ∧ s.amountOut ≠ "0")) := by
  unfold quoteEnabled indexPathAsNumbers
  rw [hsync]
  cases hmode : s.isExactInput <;>
    simp [Bool.and_eq_true, Bool.or_eq_true, Bool.not_eq_true',
      beq_eq_false_iff_ne, decide_eq_true_eq, List.length_pos,
      Nat.pos_iff_ne_zero, List.length_map] <;>
    tauto

section AmountCodec

lemma ofDec_foldl (ys : List Char) :
    ∀ a : Nat, ys.foldl (fun a c => 10 * a + digitVal c) a
      = a * 10 ^ ys.length + ofDec ys := by
  induction ys with
  | nil => intro a; simp [ofDec]
  | cons c t ih =>
    intro a
    have h2 : ofDec (c :: t) = digitVal c * 10 ^ t.length + ofDec t := by
      show t.foldl _ (10 * 0 + digitVal c) = _
      rw [ih (10 * 0 + digitVal c)]
      ring
    show t.foldl _ (10 * a + digitVal c) = _
    rw [ih (10 * a + digitVal c), h2, List.length_cons]
    ring

lemma ofDec_cons (c : Char) (t : List Char) :
    ofDec (c :: t) = digitVal c * 10 ^ t.length + ofDec t := by
  show t.foldl _ (10 * 0 + digitVal c) = _
  rw [ofDec_foldl t (10 * 0 + digitVal c)]
  ring

lemma ofDec_singleton (c : Char) : ofDec [c] = digitVal c := by
  rw [ofDec_cons]
  simp [ofDec]

lemma ofDec_append (xs ys : List Char) :
    ofDec (xs ++ ys) = ofDec xs * 10 ^ ys.length + ofDec ys := by
  unfold ofDec
  rw [List.foldl_append]
  exact ofDec_foldl ys _

lemma ofDec_replicate_zero (k : Nat) : ofDec (List.replicate k '0') = 0 := by
  induction k with
  | zero => rfl
  | succ k ih =>
    rw [List.replicate_succ, ofDec_cons, ih, show digitVal '0' = 0 from rfl]
    simp

lemma ofDec_append_replicate_zero (xs : List Char) (k : Nat) :
    ofDec (xs ++ List.replicate k '0') = ofDec xs * 10 ^ k := by
  rw [ofDec_append, ofDec_replicate_zero, List.length_replicate]
  simp

lemma ofDec_leading_zeros (k : Nat) (xs : List Char) :
    ofDec (List.replicate k '0' ++ xs) = ofDec xs := by
  rw [ofDec_append, ofDec_replicate_zero]
  simp

lemma digit_lt_ten {c : Char} (h : isDigitCh c = true) : digitVal c < 10 := by
  unfold isDigitCh at h
  unfold digitVal
  simp only [Bool.and_eq_true, decide_eq_true_eq] at h
  omega

lemma ofDec_lt (cs : List Char) (h : ∀ c ∈ cs, isDigitCh c = true) :
    ofDec cs < 10 ^ cs.length := by
  induction cs with
  | nil => simp [ofDec]
  | cons c t ih =>
    rw [ofDec_cons, List.length_cons, pow_succ]
    have hc := digit_lt_ten (h c (List.mem_cons_self _ _))
    have ht := ih (fun x hx => h x (List.mem_cons_of_mem _ hx))
    calc digitVal c * 10 ^ t.length + ofDec t
        < digitVal c * 10 ^ t.length + 10 ^ t.length := by omega
      _ = (digitVal c + 1) * 10 ^ t.length := by ring
      _ ≤ 10 * 10 ^ t.length := Nat.mul_le_mul_right _ (by omega)
      _ = 10 ^ t.length * 10 := by ring

lemma digitVal_digitChar {m : Nat} (h : m < 10) :
    digitVal (digitChar m) = m := by
  interval_cases m <;> rfl

lemma isDigitCh_digitChar {m : Nat} (h : m < 10) :
    isDigitCh (digitChar m) = true := by
  interval_cases m <;> rfl

lemma toDecAux_spec : ∀ fuel n : Nat, n ≤ fuel →
    ofDec (toDecAux fuel n) = n ∧
      ∀ c ∈ toDecAux fuel n, isDigitCh c = true := by
  intro fuel
  induction fuel with
  | zero =>
    intro n hn
    interval_cases n
    exact ⟨rfl, by simp [toDecAux]⟩
  | succ fuel ih =>
    intro n hn
    by_cases h0 : n = 0
    · subst h0
      exact ⟨rfl, by simp [toDecAux]⟩
    · have hdiv : n / 10 ≤ fuel := by
        have := Nat.div_lt_self (Nat.pos_of_ne_zero h0) (by norm_num : (1 : Nat) < 10)
        omega
      obtain ⟨ihv, ihd⟩ := ih (n / 10) hdiv
      have hm : n % 10 < 10 := Nat.mod_lt _ (by norm_num)
      have hunf : toDecAux (fuel + 1) n
          = toDecAux fuel (n / 10) ++ [digitChar (n % 10)] := by
        simp [toDecAux, h0]
      constructor
      · rw [hunf, ofDec_append, ihv, ofDec_singleton, digitVal_digitChar hm]
        simp only [List.length_singleton, pow_one]
        omega
      · rw [hunf]
        intro c hc
        rcases List.mem_append.mp hc with h | h
        · exact ihd c h
        · rcases List.mem_singleton.mp h with rfl
          exact isDigitCh_digitChar hm

lemma toDec_spec (n : Nat) :
    ofDec (toDec n) = n ∧ ∀ c ∈ toDec n, isDigitCh c = true := by
  unfold toDec
  by_cases h : n = 0
  · subst h
    exact ⟨rfl, by decide⟩
  · rw [if_neg h]
    exact toDecAux_spec n n le_rfl

lemma toDec_ne_nil (n : Nat) : toDec n ≠ [] := by
  unfold toDec
  by_cases h : n = 0
  · simp [h]
  · rw [if_neg h]
    cases n with
    | zero => exact absurd rfl h
    | succ m => simp [toDecAux]

lemma dtz_decomp (cs : List Char) :
    ∃ k, cs = dropTrailingZeros cs ++ List.replicate k '0' := by
  refine ⟨(cs.reverse.takeWhile (· == '0')).length, ?_⟩
  unfold dropTrailingZeros
  conv_lhs =>
    rw [← List.reverse_reverse cs,
      ← List.takeWhile_append_dropWhile (· == '0') cs.reverse,
      List.reverse_append]
  congr 1
  have hall : ∀ c ∈ cs.reverse.takeWhile (· == '0'), c = '0' := by
    intro c hc
    have hp := List.mem_takeWhile_imp hc
    simpa using hp
  have hrep := List.eq_replicate_of_mem hall
  rw [hrep, List.reverse_replicate, List.length_replicate]

lemma dropWhile_self (p : Char → Bool) (l : List Char) :
    (l.dropWhile p).dropWhile p = l.dropWhile p := by
  induction l with
  | nil => rfl
  | cons c t ih =>
    by_cases h : p c
    · simp [List.dropWhile_cons, h, ih]
    · simp [List.dropWhile_cons, h]

lemma dtz_idem (cs : List Char) :
    dropTrailingZeros (dropTrailingZeros cs) = dropTrailingZeros cs := by
  unfold dropTrailingZeros
  rw [List.reverse_reverse, dropWhile_self]

lemma mem_dtz {c : Char} {cs : List Char} (h : c ∈ dropTrailingZeros cs) :
    c ∈ cs := by
  obtain ⟨k, hk⟩ := dtz_decomp cs
  rw [hk]
  exact List.mem_append_left _ h

lemma takeWhile_dropWhile_append {p : Char → Bool} {xs : List Char}
    (h : ∀ c ∈ xs, p c = true) (y : Char) (ys : List Char) (hy : p y = false) :
    (xs ++ y :: ys).takeWhile p = xs ∧ (xs ++ y :: ys).dropWhile p = y :: ys := by
  induction xs with
  | nil => simp [List.takeWhile_cons, List.dropWhile_cons, hy]
  | cons c t ih =>
    have hc : p c = true := h c (List.mem_cons_self _ _)
    have iht := ih (fun x hx => h x (List.mem_cons_of_mem _ hx))
    simp [List.takeWhile_cons, List.dropWhile_cons, hc, iht.1, iht.2]

lemma takeWhile_dropWhile_all {p : Char → Bool} {xs : List Char}
    (h : ∀ c ∈ xs, p c = true) :
    xs.takeWhile p = xs ∧ xs.dropWhile p = [] := by
  induction xs with
  | nil => simp
  | cons c t ih =>
    have hc : p c = true := h c (List.mem_cons_self _ _)
    have iht := ih (fun x hx => h x (List.mem_cons_of_mem _ hx))
    simp [List.takeWhile_cons, List.dropWhile_cons, hc, iht.1, iht.2]

lemma digit_not_dot {c : Char} (h : isDigitCh c = true) : (c == '.') = false := by
  cases hc : c == '.' with
  | false => rfl
  | true =>
    have hcc : c = '.' := eq_of_beq hc
    subst hcc
    exact absurd h (by decide)

lemma digit_not_dash {c : Char} (h : isDigitCh c = true) : (c == '-') = false := by
  cases hc : c == '-' with
  | false => rfl
  | true =>
    have hcc : c = '-' := eq_of_beq hc
    subst hcc
    exact absurd h (by decide)

lemma jsSplitDot_nodot {xs : List Char} (h : ∀ c ∈ xs, (c == '.') = false) :
    jsSplitDot xs = (xs, none) := by
  unfold jsSplitDot
  rw [List.span_eq_take_drop]
  have hall : ∀ c ∈ xs, (fun c => !(c == '.')) c = true := by
    intro c hc
    simp [h c hc]
  obtain ⟨ht, hd⟩ := takeWhile_dropWhile_all hall
  rw [ht, hd]

lemma jsSplitDot_dot {xs : List Char} (h : ∀ c ∈ xs, (c == '.') = false)
    (ys : List Char) :
    jsSplitDot (xs ++ '.' :: ys) = (xs, some ys) := by
  unfold jsSplitDot
  rw [List.span_eq_take_drop]
  have hall : ∀ c ∈ xs, (fun c => !(c == '.')) c = true := by
    intro c hc
    simp [h c hc]
  have hy : (fun c => !(c == '.')) '.' = false := by decide
  obtain ⟨ht, hd⟩ := takeWhile_dropWhile_append hall '.' ys hy
  rw [ht, hd]

lemma numericShapeCore_digits {t : List Char}
    (h : ∀ c ∈ t, isDigitCh c = true) : numericShapeCore t = true := by
  unfold numericShapeCore
  rw [Bool.and_eq_true]
  constructor
  · rw [List.all_eq_true]
    intro c hc
    simp [h c hc]
  · have hf : t.filter (fun c => c == '.') = [] := by
      rw [List.filter_eq_nil_iff]
      intro c hc
      simp [digit_not_dot (h c hc)]
    rw [hf]
    decide

lemma numericShapeCore_with_dot {xs ys : List Char}
    (hx : ∀ c ∈ xs, isDigitCh c = true) (hy : ∀ c ∈ ys, isDigitCh c = true) :
    numericShapeCore (xs ++ '.' :: ys) = true := by
  unfold numericShapeCore
  rw [Bool.and_eq_true]
  constructor
  · rw [List.all_eq_true]
    intro c hc
    rcases List.mem_append.mp hc with h | h
    · simp [hx c h]
    · rcases List.mem_cons.mp h with rfl | h
      · decide
      · simp [hy c h]
  · have h1 : xs.filter (fun c => c == '.') = [] := by
      rw [List.filter_eq_nil_iff]
      intro c hc
      simp [digit_not_dot (hx c hc)]
    have h2 : ys.filter (fun c => c == '.') = [] := by
      rw [List.filter_eq_nil_iff]
      intro c hc
      simp [digit_not_dot (hy c hc)]
    rw [List.filter_append, h1, List.filter_cons]
    simp [h2]

/-- Core round trip of the amount codec on non-negative amounts: parsing
a formatted amount at the same decimal count recovers the amount
exactly. -/
lemma parse_format_nonneg (n d : Nat) :
    parseUnitsL (formatUnitsL (Int.ofNat n) d) d = some (Int.ofNat n) := by
  obtain ⟨hDv, hDd⟩ := toDec_spec n
  have hOUT : formatUnitsL (Int.ofNat n) d =
      (if (wholePart n d).isEmpty then ['0'] else wholePart n d) ++
        (if (fracPart n d).isEmpty then [] else '.' :: fracPart n d) := by
    unfold formatUnitsL
    rw [show (Int.ofNat n).natAbs = n from rfl, if_neg (by simp), List.nil_append]
  have hPd : ∀ c ∈ paddedDigits n d, isDigitCh c = true := by
    intro c hc
    unfold paddedDigits at hc
    rcases List.mem_append.mp hc with h | h
    · rcases List.eq_of_mem_replicate h with rfl
      decide
    · exact hDd c h
  have hPv : ofDec (paddedDigits n d) = n := by
    unfold paddedDigits
    rw [ofDec_leading_zeros]
    exact hDv
  have hdle : d ≤ (paddedDigits n d).length := by
    unfold paddedDigits
    rw [List.length_append, List.length_replicate]
    omega
  have hsplit : paddedDigits n d
      = wholePart n d ++ (paddedDigits n d).drop ((paddedDigits n d).length - d) :=
    (List.take_append_drop _ _).symm
  have hFRlen :
      ((paddedDigits n d).drop ((paddedDigits n d).length - d)).length = d := by
    rw [List.length_drop]
    omega
  have hWd : ∀ c ∈ wholePart n d, isDigitCh c = true := by
    intro c hc
    exact hPd c (List.take_subset _ _ hc)
  have hFRd : ∀ c ∈ (paddedDigits n d).drop ((paddedDigits n d).length - d),
      isDigitCh c = true := by
    intro c hc
    exact hPd c (List.drop_subset _ _ hc)
  have hWFR : ofDec (wholePart n d) * 10 ^ d
      + ofDec ((paddedDigits n d).drop ((paddedDigits n d).length - d)) = n := by
    have happ := ofDec_append (wholePart n d)
      ((paddedDigits n d).drop ((paddedDigits n d).length - d))
    rw [← hsplit, hFRlen, hPv] at happ
    exact happ.symm
  obtain ⟨k, hk⟩ :=
    dtz_decomp ((paddedDigits n d).drop ((paddedDigits n d).length - d))
  have hFdef : fracPart n d
      = dropTrailingZeros ((paddedDigits n d).drop ((paddedDigits n d).length - d)) := rfl
  have hklen : (fracPart n d).length + k = d := by
    have hlen := congrArg List.length hk
    rw [List.length_append, List.length_replicate, hFRlen, ← hFdef] at hlen
    omega
  have hFv : ofDec ((paddedDigits n d).drop ((paddedDigits n d).length - d))
      = ofDec (fracPart n d) * 10 ^ k := by
    rw [hFdef]
    rw [show ofDec ((paddedDigits n d).drop ((paddedDigits n d).length - d))
        = ofDec (dropTrailingZeros ((paddedDigits n d).drop ((paddedDigits n d).length - d))
            ++ List.replicate k '0') from by rw [← hk]]
    rw [ofDec_append_replicate_zero]
  have hFd : ∀ c ∈ fracPart n d, isDigitCh c = true := by
    intro c hc
    rw [hFdef] at hc
    exact hFRd c (mem_dtz hc)
  have hIv : ofDec (if (wholePart n d).isEmpty then ['0'] else wholePart n d)
      = ofDec (wholePart n d) := by
    by_cases h : (wholePart n d).isEmpty
    · rw [if_pos h, List.isEmpty_iff.mp h, ofDec_singleton]
      rfl
    · rw [if_neg h]
  have hId : ∀ c ∈ (if (wholePart n d).isEmpty then ['0'] else wholePart n d),
      isDigitCh c = true := by
    by_cases h : (wholePart n d).isEmpty
    · rw [if_pos h]
      intro c hc
      rcases List.mem_singleton.mp hc with rfl
      decide
    · rw [if_neg h]
      exact hWd
  have hIne : (if (wholePart n d).isEmpty then ['0'] else wholePart n d) ≠ [] := by
    by_cases h : (wholePart n d).isEmpty
    · rw [if_pos h]
      simp
    · rw [if_neg h]
      simpa [List.isEmpty_iff] using h
  have hIhead :
      ((if (wholePart n d).isEmpty then ['0'] else wholePart n d).head? == some '-')
        = false := by
    cases hI : (if (wholePart n d).isEmpty then ['0'] else wholePart n d) with
    | nil => exact absurd hI hIne
    | cons c t =>
      have hc : isDigitCh c = true := by
        apply hId
        rw [hI]
        exact List.mem_cons_self _ _
      show (some c == some '-') = false
      rw [show (some c == some '-') = (c == '-') from rfl]
      exact digit_not_dash hc
  by_cases hFnil : fracPart n d = []
  · -- no fractional digits survive: the output is the whole part alone
    have hOUT2 : formatUnitsL (Int.ofNat n) d
        = (if (wholePart n d).isEmpty then ['0'] else wholePart n d) := by
      rw [hOUT, hFnil]
      simp
    rw [hOUT2]
    unfold parseUnitsL
    have hshape :
        numericShape (if (wholePart n d).isEmpty then ['0'] else wholePart n d)
          = true := by
      unfold numericShape
      rw [hIhead]
      simp only [Bool.false_eq_true, if_false]
      exact numericShapeCore_digits hId
    rw [hshape]
    simp only [if_true]
    rw [jsSplitDot_nodot (fun c hc => digit_not_dot (hId c hc))]
    rw [hIhead]
    simp only [Bool.false_eq_true, if_false, Option.getD_none]
    congr 1
    congr 1
    unfold parseUnitsMag
    rw [show dropTrailingZeros ['0'] = [] from rfl]
    rw [if_neg (by simp)]
    simp only [List.nil_append, List.length_nil, Nat.sub_zero]
    rw [ofDec_append_replicate_zero, hIv]
    have hFR0 : ofDec ((paddedDigits n d).drop ((paddedDigits n d).length - d)) = 0 := by
      rw [hFv, hFnil]
      simp [ofDec]
    omega
  · -- the output carries a dot and the stripped fractional digits
    have hfr : (if (fracPart n d).isEmpty then ([] : List Char)
        else '.' :: fracPart n d) = '.' :: fracPart n d :=
      if_neg (by simpa [List.isEmpty_iff] using hFnil)
    have hOUT2 : formatUnitsL (Int.ofNat n) d
        = (if (wholePart n d).isEmpty then ['0'] else wholePart n d)
            ++ '.' :: fracPart n d := by
      rw [hOUT, hfr]
    rw [hOUT2]
    unfold parseUnitsL
    have hheadApp :
        (((if (wholePart n d).isEmpty then ['0'] else wholePart n d)
            ++ '.' :: fracPart n d).head? == some '-') = false := by
      cases hI : (if (wholePart n d).isEmpty then ['0'] else wholePart n d) with
      | nil => exact absurd hI hIne
      | cons c t =>
        have hc : isDigitCh c = true := by
          apply hId
          rw [hI]
          exact List.mem_cons_self _ _
        show (some c == some '-') = false
        rw [show (some c == some '-') = (c == '-') from rfl]
        exact digit_not_dash hc
    have hshape :
        numericShape ((if (wholePart n d).isEmpty then ['0'] else wholePart n d)
            ++ '.' :: fracPart n d) = true := by
      unfold numericShape
      rw [hheadApp]
      simp only [Bool.false_eq_true, if_false]
      exact numericShapeCore_with_dot hId hFd
    rw [hshape]
    simp only [if_true]
    rw [jsSplitDot_dot (fun c hc => digit_not_dot (hId c hc)) (fracPart n d)]
    rw [hIhead]
    simp only [Bool.false_eq_true, if_false, Option.getD_some]
    congr 1
    congr 1
    unfold parseUnitsMag
    have hFidem : dropTrailingZeros (fracPart n d) = fracPart n d := by
      rw [hFdef]
      exact dtz_idem _
    rw [hFidem]
    rw [if_neg (by omega)]
    rw [ofDec_append, ofDec_append_replicate_zero, hIv]
    rw [List.length_append, List.length_replicate]
    have hkd : d - (fracPart n d).length = k := by omega
    rw [hkd]
    rw [show (fracPart n d).length + k = d from hklen]
    rw [← hFv]
    omega

end AmountCodec

theorem quote_enabled_iff_witness :
    quoteEnabled t2pZero cstateGood = true ↔
      (some addrA : Option Address).isSome = true ∧
      (some addrB : Option Address).isSome = true ∧
      (some { decimals := 18 } : Option TokenInfo).isSome = true ∧
      (some { decimals := 18 } : Option TokenInfo).isSome = true ∧
      calculatedIndexPath cstateGood ≠ [] ∧
      sqrtPriceLimitX96 t2pZero cstateGood ≠ 0 ∧
      ((true = true ∧ cstateGood.amountIn ≠ "" ∧ cstateGood.amountIn ≠ "0") ∨
       (true = false ∧ cstateGood.amountOut ≠ "" ∧ cstateGood.amountOut ≠ "0")) :=
  quote_enabled_iff t2pZero cstateGood (by decide)

/-- C7: the amount codec is exact: for every non-negative integer amount
and every decimal count, parsing the formatted amount at the same decimal
count recovers the amount, with exact integer scaling and no floating
point anywhere in the embedding; and the formatter never fails, rendering
strings the BigInt conversion rejects as the zero string. -/
theorem amount_codec_exact :
    (∀ n d : Nat,
      parseTokenAmount (formatTokenAmount (.big (Int.ofNat n)) d) d
        = Int.ofNat n) ∧
    (∀ (s : String) (d : Nat), jsBigIntOfString? s = none →
      formatTokenAmount (.str s) d = "0") := by
  constructor
  · intro n d
    unfold parseTokenAmount formatTokenAmount formatUnits parseUnits
    rw [show (String.mk (formatUnitsL (Int.ofNat n) d)).data
        = formatUnitsL (Int.ofNat n) d from rfl]
    rw [parse_format_nonneg n d]
    rfl
  · intro s d h
    have hm : formatTokenAmount (.str s) d =
        match jsBigIntOfString? s with
        | some v => formatUnits v d
        | none => "0" := rfl
    rw [hm, h]

theorem amount_codec_exact_witness :
    parseTokenAmount (formatTokenAmount (.big (Int.ofNat 0)) 18) 18
        = Int.ofNat 0 ∧
      parseTokenAmount (formatTokenAmount (.big (Int.ofNat 1)) 18) 18
        = Int.ofNat 1 ∧
      parseTokenAmount
          (formatTokenAmount (.big (Int.ofNat 1234567890123456789)) 18) 18
        = Int.ofNat 1234567890123456789 ∧
      formatTokenAmount (.str strAbc) 18 = "0" :=
  ⟨amount_codec_exact.1 0 18, amount_codec_exact.1 1 18,
   amount_codec_exact.1 1234567890123456789 18,
   amount_codec_exact.2 strAbc 18 (by decide)⟩

/-- C6 (amended): parseTokenAmount never fails: whenever the underlying
conversion rejects the input (non-numeric strings), it returns zero — at
every call site, the transaction-building ones included, which then build
the transaction with a zero amount instead of failing with an
InvalidAmount error (no such error exists in the code). -/
theorem parse_never_fails (s : String) (d : Nat)
    (h : parseUnits s d = none) : parseTokenAmount s d = 0 := by
  unfold parseTokenAmount
  rw [h]
  rfl

theorem parse_never_fails_witness : parseTokenAmount strAbc 18 = 0 :=
  parse_never_fails strAbc 18 (by decide)

/-- C6 counterexample: on the transaction-building path, a non-numeric
amount does not fail: parseTokenAmount returns zero and executeSwap still
builds a swap transaction carrying a zero amount. -/
theorem parse_never_fails_cex :
    parseTokenAmount strAbc 18 = 0 ∧
      (executeSwap t2pZero 0 cstateAbc).isSome = true ∧
      txAmountIn? (executeSwap t2pZero 0 cstateAbc) = some 0 := by
  decide

/-- C5 counterexample: the quote query can be enabled although the
driving amount does not parse to a positive integer: the string of a zero
with a fractional zero digit is non-empty and differs from the literal
zero string, so the query is enabled, yet it parses to zero. -/
theorem quote_enabled_iff_cex :
    quoteEnabled t2pZero cstateZeroDot = true ∧
      cstateZeroDot.isExactInput = true ∧
      parseTokenAmount cstateZeroDot.amountIn 18 = 0 := by
  decide

/-- C3: with a usable quote q available (the code treats a zero quote as
no quote, as does the spec), the built exactInput transaction carries
amountOutMinimum equal to q minus five percent of q, and the built
exactOutput transaction carries amountInMaximum equal to q plus five
percent of q, in exact integer arithmetic; with no quote available, the
built exactOutput transaction carries the maximal uint256 amount. -/
theorem slippage_protection (t2p : Int → Nat) (now : Nat)
    (s : SwapPageState) (q : Nat) :
    (s.quoteAmount = some q → 0 < q →
      (∀ p, executeSwap t2p now s = some (.exactInput p) →
        p.amountOutMinimum = q - q * 5 / 100) ∧
      (∀ p, executeSwap t2p now s = some (.exactOutput p) →
        p.amountInMaximum = q + q * 5 / 100)) ∧
    (s.quoteAmount = none →
      ∀ p, executeSwap t2p now s = some (.exactOutput p) →
        p.amountInMaximum = MAX_UINT256) := by
  constructor
  · intro hq hqpos
    constructor
    · intro p
      unfold executeSwap
      repeat' split
      all_goals intro hexec
      all_goals first
        | exact Option.noConfusion hexec
        | exact SwapCall.noConfusion (Option.some.inj hexec)
        | skip
      all_goals
        have hrec := SwapCall.exactInput.inj (Option.some.inj hexec)
      all_goals subst hrec
      all_goals simp_all
    · intro p
      unfold executeSwap
      repeat' split
      all_goals intro hexec
      all_goals first
        | exact Option.noConfusion hexec
        | exact SwapCall.noConfusion (Option.some.inj hexec)
        | skip
      all_goals
        have hrec := SwapCall.exactOutput.inj (Option.some.inj hexec)
      all_goals subst hrec
      all_goals simp_all
  · intro hq p
    unfold executeSwap
    repeat' split
    all_goals intro hexec
    all_goals first
      | exact Option.noConfusion hexec
      | exact SwapCall.noConfusion (Option.some.inj hexec)
      | skip
    all_goals
      have hrec := SwapCall.exactOutput.inj (Option.some.inj hexec)
    all_goals subst hrec
    all_goals simp_all

theorem slippage_protection_witness :
    executeSwap t2pZero 0 cstateGood = some (.exactInput cexactIn) ∧
      cexactIn.amountOutMinimum = 9357500000000000000 ∧
      executeSwap t2pZero 0 cstateOut = some (.exactOutput cexactOut) ∧
      cexactOut.amountInMaximum
        = 10000000000000000000 + 10000000000000000000 * 5 / 100 ∧
      executeSwap t2pZero 0 cstateOutNoQuote
        = some (.exactOutput cexactOutNoQuote) ∧
      cexactOutNoQuote.amountInMaximum = MAX_UINT256 :=
  ⟨by decide, by decide, by decide,
   ((slippage_protection t2pZero 0 cstateOut 10000000000000000000).1 rfl
       (by norm_num)).2 cexactOut (by decide),
   by decide,
   (slippage_protection t2pZero 0 cstateOutNoQuote 0).2 rfl
     cexactOutNoQuote (by decide)⟩

/-- C9: switching tokens is an involution: applying handleSwitchTokens
twice restores the exact prior state, and a single application swaps the
token pair, swaps the two amount strings and inverts the input mode while
leaving every other state field untouched. -/
theorem switch_tokens_involution (s : SwapPageState) :
    handleSwitchTokens (handleSwitchTokens s) = s ∧
      (handleSwitchTokens s).tokenIn = s.tokenOut ∧
      (handleSwitchTokens s).tokenOut = s.tokenIn ∧
      (handleSwitchTokens s).amountIn = s.amountOut ∧
      (handleSwitchTokens s).amountOut = s.amountIn ∧
      (handleSwitchTokens s).isExactInput = !s.isExactInput ∧
      (handleSwitchTokens s).connected = s.connected ∧
      (handleSwitchTokens s).address = s.address ∧
      (handleSwitchTokens s).indexPath = s.indexPath ∧
      (handleSwitchTokens s).pools = s.pools ∧
      (handleSwitchTokens s).tokenInInfo = s.tokenInInfo ∧
      (handleSwitchTokens s).tokenOutInfo = s.tokenOutInfo ∧
      (handleSwitchTokens s).quoteAmount = s.quoteAmount ∧
      (handleSwitchTokens s).allowance = s.allowance ∧
      (handleSwitchTokens s).isAllowanceLoading = s.isAllowanceLoading ∧
      (handleSwitchTokens s).shouldAutoSwap = s.shouldAutoSwap := by
  refine ⟨?_, rfl, rfl, rfl, rfl, rfl, rfl, rfl, rfl, rfl, rfl, rfl, rfl,
    rfl, rfl, rfl⟩
  unfold handleSwitchTokens
  cases s
  simp

/-- C8: once the approval transaction is confirmed, the effects of the
page fire without any user action: the allowance read is refetched, the
auto-swap mark is set, and as soon as the refreshed allowance covers the
required amount (so approval is no longer needed) the swap is submitted
automatically. -/
theorem approval_auto_swap (st : OrchState) (fresh : Nat)
    (hA : st.isApproveSuccess = true)
    (hfresh : st.requiredAmount ≤ fresh) :
    (onApproveSuccessRefetch st).refetchRequested = true ∧
      (onApproveSuccessFlag (onApproveSuccessRefetch st)).shouldAutoSwap
        = true ∧
      needsApproval
        (allowanceRefreshDone fresh
          (onApproveSuccessFlag (onApproveSuccessRefetch st))) = false ∧
      (autoSwapEffect
        (allowanceRefreshDone fresh
          (onApproveSuccessFlag (onApproveSuccessRefetch st)))).swapSubmitted
        = true := by
  have h1 : onApproveSuccessRefetch st = { st with refetchRequested := true } := by
    unfold onApproveSuccessRefetch
    rw [hA]
    rfl
  have h2 : onApproveSuccessFlag (onApproveSuccessRefetch st)
      = { st with refetchRequested := true, shouldAutoSwap := true } := by
    rw [h1]
    unfold onApproveSuccessFlag
    have hA2 : ({ st with refetchRequested := true }).isApproveSuccess = true := hA
    rw [hA2]
    rfl
  have h3 : allowanceRefreshDone fresh
        (onApproveSuccessFlag (onApproveSuccessRefetch st))
      = { st with
          shouldAutoSwap := true
          allowance := fresh
          isAllowanceLoading := false
          refetchRequested := false } := by
    rw [h2]
    rfl
  have h4 : needsApproval
      { st with
        shouldAutoSwap := true
        allowance := fresh
        isAllowanceLoading := false
        refetchRequested := false } = false := by
    unfold needsApproval
    by_cases h : st.hasTokenIn
    · by_cases h0 : st.requiredAmount = 0
      · simp [h, h0]
      · simp [h, h0]
        omega
    · simp [h]
  refine ⟨by rw [h1], by rw [h2], by rw [h3]; exact h4, ?_⟩
  rw [h3]
  unfold autoSwapEffect
  rw [h4]
  simp

theorem approval_auto_swap_witness :
    (onApproveSuccessRefetch corchApproved).refetchRequested = true ∧
      (onApproveSuccessFlag (onApproveSuccessRefetch corchApproved)).shouldAutoSwap
        = true ∧
      needsApproval
        (allowanceRefreshDone 10000000000000000000
          (onApproveSuccessFlag (onApproveSuccessRefetch corchApproved)))
        = false ∧
      (autoSwapEffect
        (allowanceRefreshDone 10000000000000000000
          (onApproveSuccessFlag
            (onApproveSuccessRefetch corchApproved)))).swapSubmitted
        = true :=
  approval_auto_swap corchApproved 10000000000000000000 (by decide) (by decide)

end MyDex
